import Mathlib

/-!
Verification development for the file-ingestion and note-segmentation
pipeline (`FileProcessor` in the repository's file-processing module, plus
the duration estimator of the speech-to-text service).

The embedding works on `String` / `List Char`; JavaScript strings are
modelled per code point (the inputs exercised here are ASCII, where
JS UTF-16 lengths and indices coincide with code-point counts).
The JavaScript regular expressions used by `extractNotesFromContent` are
embedded as explicit scanning functions that reproduce the engine's
left-to-right scan, greedy matching and backtracking for those concrete
patterns, including the multiline `^` anchor and the fact that `\s`
matches newlines while `.` does not.
-/

deriving instance DecidableEq for Except

/-! ### Character classes (JS `\s`, `\d`, `.`, line terminators) -/

/-- Character class of the JS regex `\s` and of `String.prototype.trim`:
space, tab, newline, carriage return, vertical tab, form feed, NBSP,
BOM and the two Unicode line separators. -/
def isJsWs (c : Char) : Bool :=
  c = ' ' || c = '\t' || c = '\n' || c = '\r' || c = '\x0b' || c = '\x0c' ||
  c.toNat = 0xa0 || c.toNat = 0xfeff || c.toNat = 0x2028 || c.toNat = 0x2029

/-- JS line terminators: `\n`, `\r`, U+2028, U+2029.  The multiline `^`
matches after one of these, multiline `$` before one, and `.` matches
none of them. -/
def isLineTerm (c : Char) : Bool :=
  c = '\n' || c = '\r' || c.toNat = 0x2028 || c.toNat = 0x2029

/-- JS regex `\d`, i.e. exactly the ASCII digits. -/
def isDigitCh (c : Char) : Bool := '0' ≤ c && c ≤ '9'

/-- Length of the maximal whitespace (`\s*`) run at the head of the list. -/
def wsRunLen (l : List Char) : ℕ := (l.takeWhile isJsWs).length

/-- Length of the maximal run of `#` characters at the head of the list. -/
def hashRunLen (l : List Char) : ℕ := (l.takeWhile (fun c => c = '#')).length

/-- Length of the maximal digit run at the head of the list. -/
def digitRunLen (l : List Char) : ℕ := (l.takeWhile isDigitCh).length

/-- Length of the maximal run of `.`-matchable characters (everything up
to the next line terminator or the end of the string). -/
def lineRunLen (l : List Char) : ℕ := (l.takeWhile (fun c => !isLineTerm c)).length

/-- Whether the last character of a consumed match is a line terminator;
this decides whether the position right after the match is a line start
for the multiline `^` anchor. -/
def lastIsLineTerm (l : List Char) : Bool :=
  match l.getLast? with
  | some c => isLineTerm c
  | none => false

/-- Does `p` occur at the head of `l`?  (Helper for substring search and
literal tokens.) -/
def leadsWith : List Char → List Char → Bool
  | [], _ => true
  | _ :: _, [] => false
  | a :: as, b :: bs => a = b && leadsWith as bs

/-- JS `String.prototype.includes`: contiguous-substring test. -/
def hasSub : List Char → List Char → Bool
  | [], pat => pat.isEmpty
  | c :: rest, pat => leadsWith pat (c :: rest) || hasSub rest pat

/-- JS `String.prototype.trim` (both ends, `\s` class). -/
def trimL (l : List Char) : List Char :=
  ((l.dropWhile isJsWs).reverse.dropWhile isJsWs).reverse

/-- `s.split('\n')[0]` — everything before the first literal newline. -/
def firstLineL (l : List Char) : List Char := l.takeWhile (fun c => c ≠ '\n')

/-! ### Match-at-position functions for the concrete regexes -/

/-- Largest backtracking amount `j` with `1 ≤ j < w` such that the `j`-th
character of `l` is not a line terminator.  Used when the greedy `\s+` of
the heading regex runs to the end of the string and has to give
characters back so that `(.+)$` can still match. -/
def backtrackJ (l : List Char) (w : ℕ) : Option ℕ :=
  (List.range w).reverse.find? (fun j =>
    1 ≤ j && (match l.get? j with
              | some c => !isLineTerm c
              | none => false))

/-- Match of `/^#{1,6}\s+(.+)$/` (`m` flag) at the current position, which
the caller guarantees to be a line start.  Returns the length of the
whole match.  `#{1,6}` is greedy but cannot backtrack usefully (a shorter
hash run is followed by `#`, which `\s` rejects), `\s+` is greedy across
newlines, and `(.+)$` then takes the rest of the line; when the
whitespace run reaches the end of the string, `\s+` backtracks so that
`(.+)` can consume trailing non-newline whitespace. -/
def matchHeaderFullAt (s : List Char) : Option ℕ :=
  let h := hashRunLen s
  if h = 0 ∨ 6 < h then none
  else
    let afterHash := s.drop h
    let w := wsRunLen afterHash
    if w = 0 then none
    else
      let afterWs := afterHash.drop w
      if afterWs.isEmpty then
        match backtrackJ afterHash w with
        | some j => some (h + j + lineRunLen (afterHash.drop j))
        | none => none
      else some (h + w + lineRunLen afterWs)

/-- Match of the split regex `/^#{1,6}\s+/` (`m` flag) at a line start:
one to six hashes followed by the maximal whitespace run. -/
def matchHeaderMarkerAt (s : List Char) : Option ℕ :=
  let h := hashRunLen s
  if h = 0 ∨ 6 < h then none
  else
    let w := wsRunLen (s.drop h)
    if w = 0 then none else some (h + w)

/-- Match of the split regex `/^\d+\.\s+/` (`m` flag) at a line start.
Only the full digit run can be followed by the literal dot, so no digit
backtracking arises. -/
def matchNumberedAt (s : List Char) : Option ℕ :=
  let d := digitRunLen s
  if d = 0 then none
  else if s.get? d = some '.' then
    let w := wsRunLen (s.drop (d + 1))
    if w = 0 then none else some (d + 1 + w)
  else none

/-- Match of the split regex `/^[-*•]\s+/` (`m` flag) at a line start. -/
def matchBulletAt (s : List Char) : Option ℕ :=
  match s with
  | c :: rest =>
    if c = '-' ∨ c = '*' ∨ c = '•' then
      let w := wsRunLen rest
      if w = 0 then none else some (1 + w)
    else none
  | [] => none

/-- Match of the (unanchored) split regex `/\n\s*\n/` at the current
position: a literal newline, then the greedy `\s*` backtracks to the last
newline inside the following whitespace run. -/
def matchParaAt (s : List Char) : Option ℕ :=
  match s with
  | '\n' :: rest =>
    let r := wsRunLen rest
    match (List.range r).reverse.find? (fun j => rest.get? j = some '\n') with
    | some j => some (1 + j + 1)
    | none => none
  | _ => none

/-- Match of `/Row \d+: (.+)/` (no anchors) at the current position. -/
def matchRowAt (s : List Char) : Option ℕ :=
  if leadsWith "Row ".data s then
    let d := digitRunLen (s.drop 4)
    if d = 0 then none
    else if leadsWith ": ".data (s.drop (4 + d)) then
      let len := lineRunLen (s.drop (4 + d + 2))
      if len = 0 then none else some (4 + d + 2 + len)
    else none
  else none

/-! ### Generic global scan: `match` and `split` with the `g` flag -/

/-- Worker for the global `match` scan.  `anchored` says whether the
regex starts with a multiline `^`; `atStart` tracks whether the current
position is a line start.  Fuel is an upper bound on the number of steps
(the initial call passes the string length plus one, which suffices
because every step consumes at least one character). -/
def scanMatchesAux (matchAt : List Char → Option ℕ) (anchored : Bool) :
    ℕ → List Char → Bool → List (List Char)
  | 0, _, _ => []
  | _ + 1, [], _ => []
  | fuel + 1, c :: rest, atStart =>
    match (if !anchored || atStart then matchAt (c :: rest) else none) with
    | some n =>
      if n = 0 then scanMatchesAux matchAt anchored fuel rest (isLineTerm c)
      else
        (c :: rest).take n ::
          scanMatchesAux matchAt anchored fuel ((c :: rest).drop n)
            (lastIsLineTerm ((c :: rest).take n))
    | none => scanMatchesAux matchAt anchored fuel rest (isLineTerm c)

/-- `str.match(regex)` with the `g` flag: list of all matched substrings,
scanning left to right and resuming after each match. -/
def scanMatches (matchAt : List Char → Option ℕ) (anchored : Bool)
    (s : List Char) : List (List Char) :=
  scanMatchesAux matchAt anchored (s.length + 1) s true

/-- Worker for `split` on a regex: accumulates the current piece in
reverse and cuts it at every match. -/
def splitScanAux (matchAt : List Char → Option ℕ) (anchored : Bool) :
    ℕ → List Char → Bool → List Char → List (List Char)
  | 0, s, _, acc => [acc.reverse ++ s]
  | _ + 1, [], _, acc => [acc.reverse]
  | fuel + 1, c :: rest, atStart, acc =>
    match (if !anchored || atStart then matchAt (c :: rest) else none) with
    | some n =>
      if n = 0 then splitScanAux matchAt anchored fuel rest (isLineTerm c) (c :: acc)
      else
        acc.reverse ::
          splitScanAux matchAt anchored fuel ((c :: rest).drop n)
            (lastIsLineTerm ((c :: rest).take n)) []
    | none => splitScanAux matchAt anchored fuel rest (isLineTerm c) (c :: acc)

/-- `str.split(regex)` (the splitting regexes of the segmentation engine
contain no capture groups, so the result is just the list of pieces
between matches, with a leading/trailing empty piece when a match touches
either end of the string). -/
def splitScan (matchAt : List Char → Option ℕ) (anchored : Bool)
    (s : List Char) : List (List Char) :=
  splitScanAux matchAt anchored (s.length + 1) s true []

/-! ### The named scans used by `extractNotesFromContent` -/

/-- `content.match(/^#{1,6}\s+(.+)$/gm)` — the heading lines. -/
def headerFullRegexMatches (c : List Char) : List (List Char) :=
  scanMatches matchHeaderFullAt true c

/-- `content.split(/^#{1,6}\s+/gm)` — pieces between heading markers. -/
def headerSplitSections (c : List Char) : List (List Char) :=
  splitScan matchHeaderMarkerAt true c

/-- `content.split(/^\d+\.\s+/gm)` — pieces between numbered markers. -/
def numberedSections (c : List Char) : List (List Char) :=
  splitScan matchNumberedAt true c

/-- `content.split(/\n\s*\n/)` — blank-line-delimited paragraphs. -/
def paragraphSplit (c : List Char) : List (List Char) :=
  splitScan matchParaAt false c

/-- `content.split(/\n\s*\n/).filter(p => p.trim().length > 50)`. -/
def qualifyingParagraphs (c : List Char) : List (List Char) :=
  (paragraphSplit c).filter (fun p => 50 < (trimL p).length)

/-- `content.split(/^[-*•]\s+/gm)` — pieces between bullet markers. -/
def bulletSections (c : List Char) : List (List Char) :=
  splitScan matchBulletAt true c

/-- `content.match(/Row \d+: (.+)/g)` — the row lines of a tabular banner. -/
def rowMatches (c : List Char) : List (List Char) :=
  scanMatches matchRowAt false c

/-! ### Small helpers shared by the segmentation methods -/

/-- JS `Array.prototype.map((x, index) => ...)`: map with the element
index, starting from `k`. -/
def mapWithIdx (f : ℕ → α → β) : ℕ → List α → List β
  | _, [] => []
  | i, x :: xs => f i x :: mapWithIdx f (i + 1) xs

/-- One decimal digit as a character. -/
def digitCh : ℕ → Char
  | 0 => '0' | 1 => '1' | 2 => '2' | 3 => '3' | 4 => '4'
  | 5 => '5' | 6 => '6' | 7 => '7' | 8 => '8' | 9 => '9'
  | _ => '*'

/-- Digit extraction, fueled so that it evaluates by kernel reduction
(the fuel only needs to exceed the number of digits). -/
def natToStrAux : ℕ → ℕ → List Char
  | 0, _ => []
  | fuel + 1, n =>
    if n = 0 then [] else natToStrAux fuel (n / 10) ++ [digitCh (n % 10)]

/-- JS number-to-string conversion for the natural numbers interpolated
into template literals (decimal notation). -/
def natToStr (n : ℕ) : String :=
  if n = 0 then "0" else ⟨natToStrAux n n⟩

/-- JS `a || b` on strings: the only falsy string is the empty one. -/
def orElseL (l d : List Char) : List Char := if l.isEmpty then d else l

/-- The 50-character title truncation used by several strategies:
`firstLine.length > 50 ? firstLine.substring(0, 50) + '...' : firstLine`. -/
def truncTitle (l : List Char) : List Char :=
  if 50 < l.length then l.take 50 ++ "...".data else l

/-- `headerMatch.replace(/^#{1,6}\s+/, '')` — strips the heading marker
(hashes plus the greedy whitespace run) from the front of a match. -/
def stripHeaderMarker (m : List Char) : List Char :=
  let h := hashRunLen m
  if h = 0 ∨ 6 < h then m
  else
    let w := wsRunLen (m.drop h)
    if w = 0 then m else m.drop (h + w)

/-- Index of the last `.` in the list, if any (JS `lastIndexOf('.')`). -/
def lastDotIdx : List Char → Option ℕ
  | [] => none
  | c :: rest =>
    match lastDotIdx rest with
    | some i => some (i + 1)
    | none => if c = '.' then some 0 else none

/-- `fileName.replace(/\.[^/.]+$/, '')`: drops a final `.ext` whose
extension part is non-empty and contains neither `/` nor `.`.  The only
position where that regex can match is the last dot. -/
def stripExtL (l : List Char) : List Char :=
  match lastDotIdx l with
  | none => l
  | some i =>
    let suffix := l.drop (i + 1)
    if suffix.isEmpty then l
    else if suffix.all (fun ch => ch ≠ '/' && ch ≠ '.') then l.take i
    else l

/-! ### Method 1: markdown headers -/

/-- Body of the markdown-header loop: pairs each split section (from the
second one on) with the corresponding entry of `headerMatches`.  When the
marker split produces more sections than there are full-regex heading
matches, the source reads `headerMatches[i - 1]` past the end of the
array and calls `.replace` on `undefined`, raising a `TypeError`; that
case is the `.error` branch. -/
def method1Go : List (List Char) → List (List Char) →
    Except Unit (List (String × String))
  | [], _ => .ok []
  | _ :: _, [] => .error ()
  | sec :: secs, hm :: hms =>
    let title := trimL (stripHeaderMarker hm)
    let sc := trimL sec
    match method1Go secs hms with
    | .error e => .error e
    | .ok rest => .ok (if 10 < sc.length then (⟨title⟩, ⟨sc⟩) :: rest else rest)

/-- Markdown-header strategy (method 1 of `extractNotesFromContent`). -/
def method1 (c : List Char) : Except Unit (List (String × String)) :=
  method1Go ((headerSplitSections c).drop 1) (headerFullRegexMatches c)

/-! ### Methods 2 and 4: numbered sections and bullet lists -/

/-- Shared body of the numbered-section and bullet loops (the source
duplicates this code verbatim in both methods): for each section from
the second one on, keep it when its trimmed content is longer than 20
characters, titling it by its truncated first line with the given
per-index fallback. -/
def sectionNotes (fallback : ℕ → List Char) :
    ℕ → List (List Char) → List (String × String)
  | _, [] => []
  | i, sec :: rest =>
    let sc := trimL sec
    let title := truncTitle (firstLineL sc)
    let tail := sectionNotes fallback (i + 1) rest
    if 20 < sc.length then (⟨orElseL title (fallback i)⟩, ⟨sc⟩) :: tail else tail

/-- Numbered-section strategy (method 2). -/
def method2 (c : List Char) : List (String × String) :=
  sectionNotes (fun i => ("Section " ++ natToStr i).data) 1
    ((numberedSections c).drop 1)

/-- Bullet-list strategy (method 4). -/
def method4 (c : List Char) : List (String × String) :=
  sectionNotes (fun i => ("Item " ++ natToStr i).data) 1
    ((bulletSections c).drop 1)

/-! ### Method 3: paragraph blocks -/

/-- Paragraph strategy (method 3): every qualifying paragraph becomes a
unit (`index` is zero-based, the fallback title is
`Note ${index + 1} from ${fileName}`). -/
def method3 (c : List Char) (fileName : String) : List (String × String) :=
  mapWithIdx (fun index p =>
    let title := truncTitle (firstLineL (trimL p))
    (⟨orElseL title ("Note " ++ natToStr (index + 1) ++ " from " ++ fileName).data⟩,
     ⟨trimL p⟩)) 0 (qualifyingParagraphs c)

/-! ### Method 5: row-oriented tabular text -/

/-- The value part of a parsed flat-JSON row: its JS string coercion and
its JS truthiness. -/
structure RowVal where
  s : String
  truthy : Bool
deriving DecidableEq

/-- JSON insignificant whitespace. -/
def skipWsJson (l : List Char) : List Char :=
  l.dropWhile (fun c => c = ' ' || c = '\t' || c = '\n' || c = '\r')

/-- A JSON string literal without escape sequences (a backslash makes the
model report a parse failure; the banner rows produced upstream do not
contain escapes). -/
def parseJsonString : List Char → Option (String × List Char)
  | '"' :: rest =>
    let body := rest.takeWhile (fun c => c ≠ '"' && c ≠ '\\')
    match rest.drop body.length with
    | '"' :: rest2 => some (⟨body⟩, rest2)
    | _ => none
  | _ => none

/-- A JSON number token (optional sign, integer part, optional fraction;
exponents are not modelled).  The coerced string keeps the source
notation; the value is falsy exactly when all its digits are zero. -/
def parseNumberToken (l : List Char) : Option (RowVal × List Char) :=
  let sign : List Char := if l.head? = some '-' then ['-'] else []
  let l1 := l.drop sign.length
  let intPart := l1.takeWhile isDigitCh
  if intPart.isEmpty then none
  else
    let l2 := l1.drop intPart.length
    match l2 with
    | '.' :: l3 =>
      let fracPart := l3.takeWhile isDigitCh
      if fracPart.isEmpty then none
      else
        some (⟨⟨sign ++ intPart ++ '.' :: fracPart⟩,
               (intPart ++ fracPart).any (fun c => c ≠ '0')⟩,
              l3.drop fracPart.length)
    | _ => some (⟨⟨sign ++ intPart⟩, intPart.any (fun c => c ≠ '0')⟩, l2)

/-- A primitive JSON value.  Nested objects and arrays are not modelled
(they are treated as a parse failure; the upstream banner rows carry flat
records of primitives). -/
def parseJsonValue (l : List Char) : Option (RowVal × List Char) :=
  match l with
  | '"' :: _ =>
    match parseJsonString l with
    | some (s, rest) => some (⟨s, !(s = "")⟩, rest)
    | none => none
  | 't' :: _ =>
    if leadsWith "true".data l then some (⟨"true", true⟩, l.drop 4) else none
  | 'f' :: _ =>
    if leadsWith "false".data l then some (⟨"false", false⟩, l.drop 5) else none
  | 'n' :: _ =>
    if leadsWith "null".data l then some (⟨"null", false⟩, l.drop 4) else none
  | _ => parseNumberToken l

/-- The comma-separated member list of a flat JSON object, ending at the
closing brace.  Fueled (the initial fuel exceeds the input length). -/
def parseJsonPairsAux : ℕ → List Char → Option (List (String × RowVal) × List Char)
  | 0, _ => none
  | fuel + 1, l =>
    match parseJsonString (skipWsJson l) with
    | none => none
    | some (k, l1) =>
      match skipWsJson l1 with
      | ':' :: l2 =>
        match parseJsonValue (skipWsJson l2) with
        | none => none
        | some (v, l3) =>
          match skipWsJson l3 with
          | ',' :: l4 =>
            match parseJsonPairsAux fuel l4 with
            | some (ps, r) => some ((k, v) :: ps, r)
            | none => none
          | '\x7d' :: l4 => some ([(k, v)], l4)
          | _ => none
      | _ => none

/-- `JSON.parse` restricted to flat objects of primitive values, the
shape of the serialized rows in the spreadsheet banners.  Whole-input
consumption is required; any other JSON shape is reported as a parse
failure (taking the `catch` branch of the caller).  Duplicate keys are
kept in order rather than overwritten (unreachable for the banner rows). -/
def jsonParseFlat (l : List Char) : Option (List (String × RowVal)) :=
  match skipWsJson l with
  | '\x7b' :: rest =>
    match skipWsJson rest with
    | '\x7d' :: rest2 => if (skipWsJson rest2).isEmpty then some [] else none
    | _ =>
      match parseJsonPairsAux (rest.length + 1) rest with
      | some (ps, r) => if (skipWsJson r).isEmpty then some ps else none
      | none => none
  | _ => none

/-- Match of `/Row \d+: /` (used by `row.replace(/Row \d+: /, '')`). -/
def matchRowMarkerAt (s : List Char) : Option ℕ :=
  if leadsWith "Row ".data s then
    let d := digitRunLen (s.drop 4)
    if d = 0 then none
    else if leadsWith ": ".data (s.drop (4 + d)) then some (4 + d + 2)
    else none
  else none

/-- Removes the first occurrence of `/Row \d+: /` (fueled scan over the
string; for the strings produced by `rowMatches` the occurrence is the
leading marker itself). -/
def stripRowMarkerAux : ℕ → List Char → List Char
  | 0, s => s
  | _ + 1, [] => []
  | fuel + 1, c :: rest =>
    match matchRowMarkerAt (c :: rest) with
    | some n => (c :: rest).drop n
    | none => c :: stripRowMarkerAux fuel rest

/-- `row.replace(/Row \d+: /, '')`. -/
def stripRowMarker (l : List Char) : List Char :=
  stripRowMarkerAux (l.length + 1) l

/-- One note per matched row (method 5 pushes a note in both the `try`
and the `catch` branch): on parse success the title is the first field's
value (its fallback `Row ${index + 1}` when that value is falsy),
truncated to 50 characters, and the content is the `key: value` lines;
on parse failure the title is the fallback and the content the raw
payload. -/
def rowNote (index : ℕ) (row : List Char) : String × String :=
  let rowContent := stripRowMarker row
  match jsonParseFlat rowContent with
  | some entries =>
    let title : String :=
      match entries.head? with
      | some kv => if kv.2.truthy then kv.2.s else "Row " ++ natToStr (index + 1)
      | none => "Row " ++ natToStr (index + 1)
    (⟨title.data.take 50⟩,
     String.intercalate "\n" (entries.map (fun kv => kv.1 ++ ": " ++ kv.2.s)))
  | none => ("Row " ++ natToStr (index + 1), ⟨rowContent⟩)

/-- Row-oriented strategy (method 5). -/
def method5 (c : List Char) : List (String × String) :=
  mapWithIdx rowNote 0 (rowMatches c)

/-! ### Fallback A: fixed-size chunking -/

/-- `for (i = 0; i < content.length; i += 800) chunks.push(content.substring(i, i + 800))`. -/
def chunksOf (l : List Char) : List (List Char) :=
  if h : l = [] then [] else l.take 800 :: chunksOf (l.drop 800)
termination_by l.length
decreasing_by
  cases l with
  | nil => exact absurd rfl h
  | cons c rest => simp only [List.length_drop, List.length_cons]; omega

/-- Chunking strategy (fallback A): one note per 800-character chunk. -/
def chunkNotes (c : List Char) (fileName : String) : List (String × String) :=
  mapWithIdx (fun index chunk =>
    let title := truncTitle (firstLineL (trimL chunk))
    (⟨orElseL title ("Part " ++ natToStr (index + 1) ++ " from " ++ fileName).data⟩,
     ⟨trimL chunk⟩)) 0 (chunksOf c)

/-! ### The segmentation engine -/

/-- `FileProcessor.extractNotesFromContent`: the ordered cascade of
splitting strategies.  The method-5 guard folds the source's nested
`if (content.includes(...)) { if (rowMatches && rowMatches.length > 1) ... }`
(whose inner miss falls through to the chunking fallback) into one
conjunctive condition.  The `.error` outcome is the `TypeError` raised in
method 1 when the marker split yields more sections than the heading
regex yields matches (see `method1Go`). -/
def extractNotesFromContent (content fileName : String) :
    Except Unit (List (String × String)) :=
  if 1 < (headerFullRegexMatches content.data).length then
    method1 content.data
  else if 2 < (numberedSections content.data).length then
    .ok (method2 content.data)
  else if 1 < (qualifyingParagraphs content.data).length then
    .ok (method3 content.data fileName)
  else if 2 < (bulletSections content.data).length then
    .ok (method4 content.data)
  else if (hasSub content.data "Row 1:".data = true ∨
           hasSub content.data "Columns:".data = true) ∧
          1 < (rowMatches content.data).length then
    .ok (method5 content.data)
  else if 1000 < content.length then
    .ok (chunkNotes content.data fileName)
  else
    .ok [(⟨orElseL (stripExtL fileName.data) "Extracted Content".data⟩, content)]

/-! ### Type classifier -/

/-- ASCII lower-casing, the per-code-point model of JS `toLowerCase` for
the inputs of interest. -/
def jsToLower (c : Char) : Char :=
  match c with
  | 'A' => 'a' | 'B' => 'b' | 'C' => 'c' | 'D' => 'd' | 'E' => 'e'
  | 'F' => 'f' | 'G' => 'g' | 'H' => 'h' | 'I' => 'i' | 'J' => 'j'
  | 'K' => 'k' | 'L' => 'l' | 'M' => 'm' | 'N' => 'n' | 'O' => 'o'
  | 'P' => 'p' | 'Q' => 'q' | 'R' => 'r' | 'S' => 's' | 'T' => 't'
  | 'U' => 'u' | 'V' => 'v' | 'W' => 'w' | 'X' => 'x' | 'Y' => 'y'
  | 'Z' => 'z'
  | other => other

/-- `s.toLowerCase()` as a `String` operation. -/
def lowerStr (s : String) : String := ⟨s.data.map jsToLower⟩

/-- `FileProcessor.getFileExtension`:
`filename.toLowerCase().substring(filename.lastIndexOf('.'))`.
`lastIndexOf` is taken on the original name, the substring on the
lower-cased one; a missing dot gives `-1`, which `substring` clamps to
`0`, returning the whole lower-cased name. -/
def getFileExtension (filename : String) : String :=
  let lowered := filename.data.map jsToLower
  match lastDotIdx filename.data with
  | some i => ⟨lowered.drop i⟩
  | none => ⟨lowered⟩

/-- `FileProcessor.SUPPORTED_TYPES`, in source order. -/
def SUPPORTED_TYPES : List (String × List String) :=
  [("text", [".txt", ".md", ".rtf"]),
   ("document", [".pdf", ".doc", ".docx", ".odt"]),
   ("spreadsheet", [".xls", ".xlsx", ".csv", ".ods"]),
   ("presentation", [".ppt", ".pptx", ".odp"]),
   ("image", [".jpg", ".jpeg", ".png", ".gif", ".bmp", ".webp", ".svg"]),
   ("audio", [".mp3", ".wav", ".ogg", ".m4a", ".flac", ".aac"]),
   ("video", [".mp4", ".avi", ".mov", ".wmv", ".flv", ".webm", ".mkv"]),
   ("code", [".js", ".ts", ".jsx", ".tsx", ".py", ".java", ".cpp", ".c",
             ".html", ".css", ".json", ".xml", ".yaml", ".yml"]),
   ("archive", [".zip", ".rar", ".7z", ".tar", ".gz"])]

/-- `FileProcessor.getFileType`: first category whose extension list
contains the extension, else `"unknown"`. -/
def getFileType (extension : String) : String :=
  match SUPPORTED_TYPES.find? (fun p => extension ∈ p.2) with
  | some p => p.1
  | none => "unknown"

/-! ### Data model -/

/-- `ProcessedFile`.  The open `metadata` record is modelled by the two
fields the note synthesizer consumes (`metadata?.thumbnail` and
`metadata?.duration`); `originalName`, `lastModified` and the MIME type
stored there are display-only. -/
structure ProcessedFile where
  name : String
  type : String
  size : ℕ
  content : String
  extractedText : Option String
  metaThumbnail : Option String
  metaDuration : Option ℕ
deriving DecidableEq

/-- The persisted `Note` record (timestamps as abstract naturals). -/
structure Note where
  id : String
  title : String
  content : String
  type : String
  tags : List String
  category : String
  createdAt : ℕ
  updatedAt : ℕ
  summary : String
  transcription : Option String
  isStarred : Bool
  fileUrl : Option String
  duration : Option ℕ
  sourceFile : String
  extractedFrom : String
deriving DecidableEq

/-! ### Note synthesizer -/

/-- `FileProcessor.mapFileTypeToNoteType`. -/
def mapFileTypeToNoteType (fileType : String) : String :=
  if fileType = "text" then "text"
  else if fileType = "document" then "document"
  else if fileType = "spreadsheet" then "document"
  else if fileType = "presentation" then "document"
  else if fileType = "code" then "text"
  else if fileType = "image" then "image"
  else if fileType = "audio" then "audio"
  else if fileType = "video" then "video"
  else "document"

/-- `FileProcessor.generateSmartTags`: size-keyed and keyword-keyed tags
computed from the whole file's lower-cased content. -/
def generateSmartTags (pf : ProcessedFile) : List String :=
  let content := (lowerStr pf.content).data
  (if 10 * 1024 * 1024 < pf.size then ["large-file"] else []) ++
  (if pf.size < 1024 then ["small-file"] else []) ++
  (if hasSub content "meeting".data || hasSub content "agenda".data then ["meeting"] else []) ++
  (if hasSub content "project".data || hasSub content "task".data then ["project"] else []) ++
  (if hasSub content "research".data || hasSub content "study".data then ["research"] else []) ++
  (if hasSub content "report".data || hasSub content "analysis".data then ["report"] else []) ++
  (if hasSub content "presentation".data || hasSub content "slide".data then ["presentation"] else [])

/-- `s.trim()` on strings. -/
def trimStr (s : String) : String := ⟨trimL s.data⟩

/-- `FileProcessor.generateSummary`: content verbatim when it has at most
200 characters, otherwise the trimmed first 150 characters plus an
ellipsis whenever that is still shorter than the content (which it
always is in this branch). -/
def generateSummary (pf : ProcessedFile) : String :=
  let content := pf.content
  if content.length ≤ 200 then content
  else
    let summary := trimStr ⟨content.data.take 150⟩
    summary ++ (if summary.length < content.length then "..." else "")

/-- Worker for the global `replace(/\s+/g, '-')`: the flag records
whether the previous character was whitespace (i.e. whether the current
whitespace run has already emitted its dash). -/
def wsToDashAux : Bool → List Char → List Char
  | _, [] => []
  | prevWs, c :: rest =>
    if isJsWs c then
      (if prevWs then [] else ['-']) ++ wsToDashAux true rest
    else c :: wsToDashAux false rest

/-- `replace(/\s+/g, '-')`: every maximal whitespace run becomes a
single dash. -/
def wsToDash (l : List Char) : List Char := wsToDashAux false l

/-- The slug tag of the base file name:
`baseFileName.toLowerCase().replace(/\s+/g, '-')`. -/
def slugTag (l : List Char) : String := ⟨wsToDash (l.map jsToLower)⟩

/-- `processedFile.metadata?.thumbnail || undefined`: the empty string is
falsy and becomes `undefined`. -/
def jsOrUndef : Option String → Option String
  | some s => if s = "" then none else some s
  | none => none

/-- The note id template
`` `file_${Date.now()}_${index}_${Math.random().toString(36).substr(2, 9)}` ``.
`dateNow` gives the clock reading at each index, `rand` the random
base-36 suffix drawn at each index. -/
def mkNoteId (dateNow : ℕ → ℕ) (rand : ℕ → String) (index : ℕ) : String :=
  "file_" ++ natToStr (dateNow index) ++ "_" ++ natToStr index ++ "_" ++ rand index

/-- `FileProcessor.createNotesFromProcessedFile`.  The clock and the
random generator are passed as index-indexed environments; a `TypeError`
escaping the segmentation engine propagates to the caller. -/
def createNotesFromProcessedFile (pf : ProcessedFile) (category : String)
    (now : ℕ) (dateNow : ℕ → ℕ) (rand : ℕ → String) : Except Unit (List Note) :=
  match extractNotesFromContent pf.content pf.name with
  | .error e => .error e
  | .ok extractedNotes =>
    if extractedNotes.isEmpty then .ok []
    else
      let noteType := mapFileTypeToNoteType pf.type
      let baseFileName := stripExtL pf.name.data
      .ok (mapWithIdx (fun index en =>
        ({ id := mkNoteId dateNow rand index,
           title := en.1,
           content := en.2,
           type := noteType,
           tags := [pf.type, "uploaded", "extracted", slugTag baseFileName] ++
                   generateSmartTags pf,
           category := category,
           createdAt := now,
           updatedAt := now,
           summary := generateSummary { pf with content := en.2 },
           transcription :=
             if pf.type = "audio" ∨ pf.type = "video" then pf.extractedText else none,
           isStarred := false,
           fileUrl := jsOrUndef pf.metaThumbnail,
           duration := pf.metaDuration,
           sourceFile := pf.name,
           extractedFrom :=
             (⟨baseFileName⟩ : String) ++ " (" ++
               (if 1 < extractedNotes.length then
                 natToStr (index + 1) ++ " of " ++ natToStr extractedNotes.length
                else "single note") ++ ")" } : Note)) 0 extractedNotes)

/-! ### `processFile` and the per-category extractor dispatch -/

/-- The file handle handed to `processFile` (its bytes are only seen by
the extractors, which are modelled as environment-supplied outcomes). -/
structure InputFile where
  name : String
  size : ℕ
deriving DecidableEq

/-- The outcomes of the category-specific extractors for one invocation.
Each models the settled state of the corresponding `await`: `.ok` with
the produced text (for audio/video, the optional transcription plus
metadata), or `.error` with the thrown error's message. -/
structure Extractors where
  textResult : Except String String
  documentResult : Except String String
  spreadsheetResult : Except String String
  imageResult : Except String String
  imageThumbResult : Except String String
  audioResult : Except String (Option String × Option ℕ)
  videoResult : Except String (Option String × Option ℕ × Option String)
  codeResult : Except String String
  archiveResult : Except String String
  genericResult : Except String String

/-- The `try` block of `processFile`: the `switch` on the classified file
type, producing the extracted text plus the thumbnail/duration metadata
set along the way (the `presentation` and `unknown` categories take the
`default` branch).  An `.error` is an exception reaching the `catch`. -/
def dispatchTry (file : InputFile) (ex : Extractors) :
    Except String (String × Option String × Option ℕ) :=
  let fileType := getFileType (getFileExtension file.name)
  if fileType = "text" then
    (ex.textResult).map (fun t => (t, none, none))
  else if fileType = "document" then
    (ex.documentResult).map (fun t => (t, none, none))
  else if fileType = "spreadsheet" then
    (ex.spreadsheetResult).map (fun t => (t, none, none))
  else if fileType = "image" then
    match ex.imageResult with
    | .error e => .error e
    | .ok t =>
      match ex.imageThumbResult with
      | .error e => .error e
      | .ok th => .ok (t, some th, none)
  else if fileType = "audio" then
    match ex.audioResult with
    | .error e => .error e
    | .ok (tr, d) => .ok (tr.getD "", none, d)
  else if fileType = "video" then
    match ex.videoResult with
    | .error e => .error e
    | .ok (tr, d, th) => .ok (tr.getD "", th, d)
  else if fileType = "code" then
    (ex.codeResult).map (fun t => (t, none, none))
  else if fileType = "archive" then
    (ex.archiveResult).map (fun t => (t, none, none))
  else
    (ex.genericResult).map (fun t => (t, none, none))

/-- `FileProcessor.processFile`: classify, dispatch inside `try`, and on
`catch` replace the extracted text by the
`Error processing file: ${message}` banner.  The function is total: no
outcome of the extractors escapes it. -/
def processFile (file : InputFile) (ex : Extractors) : ProcessedFile :=
  let fileType := getFileType (getFileExtension file.name)
  match dispatchTry file ex with
  | .ok (t, th, d) =>
    { name := file.name, type := fileType, size := file.size,
      content := t, extractedText := some t,
      metaThumbnail := th, metaDuration := d }
  | .error msg =>
    { name := file.name, type := fileType, size := file.size,
      content := "Error processing file: " ++ msg,
      extractedText := some ("Error processing file: " ++ msg),
      metaThumbnail := none, metaDuration := none }

/-! ### Duration estimation (pipeline and speech service) -/

/-- The duration estimate of `FileProcessor.processAudioFile`:
`Math.floor(file.size / 16000)` — no MIME-keyed bitrate, no clamping.
(The accompanying transcription string is a display-only banner.) -/
def processAudioFileDuration (size : ℕ) : ℕ := size / 16000

/-- The duration estimate of `FileProcessor.processVideoFile`:
`Math.floor(file.size / 100000)`. -/
def processVideoFileDuration (size : ℕ) : ℕ := size / 100000

/-- `EnhancedSpeechToTextService.estimateAudioDuration`: assumed bitrate
keyed by the blob's MIME string, `size * 8 / bitrate` seconds, clamped to
`[1, 7200]`. -/
def estimateAudioDuration (size : ℕ) (format : String) : ℚ :=
  let avgBitrate : ℚ :=
    if hasSub format.data "webm".data = true then 32000
    else if hasSub format.data "mp3".data = true then 128000
    else if hasSub format.data "wav".data = true then 1411000
    else if hasSub format.data "m4a".data = true then 256000
    else 24000
  max 1 (min ((size : ℚ) * 8 / avgBitrate) 7200)

/-! ### Concrete inputs used by the witnesses -/

/-- A text upload whose content segments into two markdown-header units. -/
def pf4 : ProcessedFile :=
  { name := "doc.md", type := "text", size := 20,
    content := "# Intro\nHello\n\n# Details\nWorld",
    extractedText := none, metaThumbnail := none, metaDuration := none }

/-- The two units the segmentation engine returns for `pf4.content`. -/
def units4 : List (String × String) :=
  [("Intro", "Intro\nHello"), ("Details", "Details\nWorld")]

/-- A plain-text file handle. -/
def file3 : InputFile := { name := "a.txt", size := 5 }

/-- Extractor outcomes where the text extractor rejects. -/
def ex3 : Extractors :=
  { textResult := .error "Failed to read text file",
    documentResult := .ok "", spreadsheetResult := .ok "", imageResult := .ok "",
    imageThumbResult := .ok "", audioResult := .ok (none, none),
    videoResult := .ok (none, none, none), codeResult := .ok "",
    archiveResult := .ok "", genericResult := .ok "" }

/-- A short-content upload (summary is returned verbatim). -/
def pf8 : ProcessedFile :=
  { name := "n.txt", type := "text", size := 1, content := "short note",
    extractedText := none, metaThumbnail := none, metaDuration := none }

/-- An upload that segments into two units, for observing the tag lists. -/
def pf9 : ProcessedFile :=
  { name := "x.md", type := "text", size := 10,
    content := "# Alpha\nHello there\n\n# Beta\nGoodbye now",
    extractedText := none, metaThumbnail := none, metaDuration := none }

/-- The notes synthesized from `pf9` under a fixed clock and randomness. -/
def c9notes : List Note :=
  match createNotesFromProcessedFile pf9 "Uploads" 1 (fun _ => 2) (fun _ => "abc123xyz") with
  | .ok l => l
  | .error _ => []

/-- A default note, used only to state positional lookups. -/
def dummyNote : Note :=
  { id := "", title := "", content := "", type := "", tags := [], category := "",
    createdAt := 0, updatedAt := 0, summary := "", transcription := none,
    isStarred := false, fileUrl := none, duration := none, sourceFile := "",
    extractedFrom := "" }

/-! ### Helper lemmas -/

/-- `mapWithIdx` preserves length. -/
theorem mapWithIdxLength (f : ℕ → α → β) (k : ℕ) (l : List α) :
    (mapWithIdx f k l).length = l.length := by
  induction l generalizing k with
  | nil => rfl
  | cons x xs ih => simp [mapWithIdx, ih]

/-- Mapping over a `mapWithIdx` fuses. -/
theorem mapWithIdxMap (f : ℕ → α → β) (g : β → γ) (k : ℕ) (l : List α) :
    (mapWithIdx f k l).map g = mapWithIdx (fun i x => g (f i x)) k l := by
  induction l generalizing k with
  | nil => rfl
  | cons x xs ih => simp [mapWithIdx, ih]

/-- Every element of `mapWithIdx f k l` is `f i x` for some index `i ≥ k`
and some element `x` of `l`. -/
theorem memMapWithIdx (f : ℕ → α → β) (k : ℕ) (l : List α) (y : β)
    (h : y ∈ mapWithIdx f k l) : ∃ i x, k ≤ i ∧ x ∈ l ∧ y = f i x := by
  induction l generalizing k with
  | nil => simp [mapWithIdx] at h
  | cons x xs ih =>
    simp only [mapWithIdx, List.mem_cons] at h
    cases h with
    | inl h => exact ⟨k, x, le_refl k, List.mem_cons_self x xs, h⟩
    | inr h =>
      obtain ⟨i, z, hki, hz, hy⟩ := ih (k + 1) h
      exact ⟨i, z, by omega, List.mem_cons_of_mem x hz, hy⟩

/-- When the produced value determines its index, `mapWithIdx` has no
duplicates. -/
theorem nodupMapWithIdx (f : ℕ → α → β)
    (hinj : ∀ i j x y, f i x = f j y → i = j) (k : ℕ) (l : List α) :
    (mapWithIdx f k l).Nodup := by
  induction l generalizing k with
  | nil => exact List.nodup_nil
  | cons x xs ih =>
    refine List.Nodup.cons ?_ (ih (k + 1))
    intro hmem
    obtain ⟨i, y, hki, _, hy⟩ := memMapWithIdx f (k + 1) xs _ hmem
    have := hinj k i x y hy
    omega

/-- A list concatenated around a separator that occurs in neither prefix
splits uniquely. -/
theorem splitUniq (sep : Char) (a : List Char) : ∀ (c x y : List Char),
    sep ∉ a → sep ∉ c → a ++ sep :: x = c ++ sep :: y → a = c ∧ x = y := by
  induction a with
  | nil =>
    intro c x y _ hc heq
    cases c with
    | nil =>
      simp only [List.nil_append, List.cons.injEq] at heq
      exact ⟨rfl, heq.2⟩
    | cons d cs =>
      simp only [List.nil_append, List.cons_append, List.cons.injEq] at heq
      exact absurd (heq.1 ▸ List.mem_cons_self d cs) hc
  | cons b bs ih =>
    intro c x y hb hc heq
    cases c with
    | nil =>
      simp only [List.cons_append, List.nil_append, List.cons.injEq] at heq
      exact absurd (heq.1 ▸ List.mem_cons_self b bs) hb
    | cons d cs =>
      simp only [List.cons_append, List.cons.injEq] at heq
      have hrest := ih cs x y (fun hm => hb (List.mem_cons_of_mem b hm))
        (fun hm => hc (List.mem_cons_of_mem d hm)) heq.2
      exact ⟨by rw [heq.1, hrest.1], hrest.2⟩

/-- No decimal digit renders as an underscore. -/
theorem digitChNoUnderscore : ∀ d < 10, digitCh d ≠ '_' := by decide

/-- `digitCh` is injective on digits. -/
theorem digitChInjAux : ∀ d, d < 10 → ∀ e, e < 10 → digitCh d = digitCh e → d = e := by
  decide

/-- `map digitCh` is injective on digit lists. -/
theorem mapDigitChInj : ∀ (l₁ l₂ : List ℕ), (∀ d ∈ l₁, d < 10) → (∀ d ∈ l₂, d < 10) →
    l₁.map digitCh = l₂.map digitCh → l₁ = l₂ := by
  intro l₁
  induction l₁ with
  | nil =>
    intro l₂ _ _ h
    cases l₂ with
    | nil => rfl
    | cons d cs => simp at h
  | cons b bs ih =>
    intro l₂ hb hc h
    cases l₂ with
    | nil => simp at h
    | cons d cs =>
      simp only [List.map_cons, List.cons.injEq] at h
      have hbd : b = d :=
        digitChInjAux b (hb b (List.mem_cons_self b bs)) d (hc d (List.mem_cons_self d cs)) h.1
      rw [hbd, ih cs (fun e he => hb e (List.mem_cons_of_mem b he))
        (fun e he => hc e (List.mem_cons_of_mem d he)) h.2]

/-- The fueled digit extraction agrees with `Nat.digits` whenever the
fuel is at least the number itself. -/
theorem natToStrAuxDigits : ∀ fuel n, n ≤ fuel →
    natToStrAux fuel n = (Nat.digits 10 n).reverse.map digitCh := by
  intro fuel
  induction fuel with
  | zero =>
    intro n h
    have hn : n = 0 := by omega
    subst hn
    simp [natToStrAux]
  | succ f ih =>
    intro n h
    by_cases hn : n = 0
    · subst hn
      simp [natToStrAux]
    · have hdig : Nat.digits 10 n = n % 10 :: Nat.digits 10 (n / 10) :=
        Nat.digits_def' (by norm_num) (Nat.pos_of_ne_zero hn)
      have hdiv : n / 10 ≤ f := by
        have := Nat.div_lt_self (Nat.pos_of_ne_zero hn) (by norm_num : 1 < 10)
        omega
      simp only [natToStrAux, if_neg hn, ih (n / 10) hdiv, hdig,
        List.reverse_cons, List.map_append, List.map_cons, List.map_nil]

/-- The decimal rendering of a natural number never contains `_`. -/
theorem natToStrNoUnderscore (n : ℕ) : '_' ∉ (natToStr n).data := by
  unfold natToStr
  by_cases h : n = 0
  · rw [if_pos h]; decide
  · rw [if_neg h]
    show '_' ∉ natToStrAux n n
    rw [natToStrAuxDigits n n (le_refl n)]
    intro hmem
    obtain ⟨d, hd, heq⟩ := List.mem_map.mp hmem
    have hd10 : d < 10 := Nat.digits_lt_base (by norm_num) (List.mem_reverse.mp hd)
    exact digitChNoUnderscore d hd10 heq

/-- Decimal rendering is injective. -/
theorem natToStrInj (m n : ℕ) (h : natToStr m = natToStr n) : m = n := by
  by_cases hm : m = 0 <;> by_cases hn : n = 0
  · rw [hm, hn]
  · exfalso
    have hd : ['0'] = (Nat.digits 10 n).reverse.map digitCh := by
      have := congrArg String.data h
      simpa [natToStr, hm, hn, natToStrAuxDigits n n (le_refl n)] using this
    have hsing : ([0] : List ℕ) = (Nat.digits 10 n).reverse := by
      apply mapDigitChInj
      · intro d hdm; simp at hdm; omega
      · intro d hdm
        exact Nat.digits_lt_base (by norm_num) (List.mem_reverse.mp hdm)
      · simpa [digitCh] using hd
    have hdig : Nat.digits 10 n = [0] := by
      have := congrArg List.reverse hsing
      simpa using this.symm
    have hzero : n = 0 := by
      have := Nat.ofDigits_digits 10 n
      rw [hdig] at this
      simpa [Nat.ofDigits] using this.symm
    exact hn hzero
  · exfalso
    have hd : (Nat.digits 10 m).reverse.map digitCh = ['0'] := by
      have := congrArg String.data h
      simpa [natToStr, hm, hn, natToStrAuxDigits m m (le_refl m)] using this
    have hsing : (Nat.digits 10 m).reverse = ([0] : List ℕ) := by
      apply mapDigitChInj
      · intro d hdm
        exact Nat.digits_lt_base (by norm_num) (List.mem_reverse.mp hdm)
      · intro d hdm; simp at hdm; omega
      · simpa [digitCh] using hd
    have hdig : Nat.digits 10 m = [0] := by
      have := congrArg List.reverse hsing
      simpa using this
    have hzero : m = 0 := by
      have := Nat.ofDigits_digits 10 m
      rw [hdig] at this
      simpa [Nat.ofDigits] using this.symm
    exact hm hzero
  · have hd : (Nat.digits 10 m).reverse.map digitCh = (Nat.digits 10 n).reverse.map digitCh := by
      have := congrArg String.data h
      simpa [natToStr, hm, hn, natToStrAuxDigits m m (le_refl m),
        natToStrAuxDigits n n (le_refl n)] using this
    have hrev : (Nat.digits 10 m).reverse = (Nat.digits 10 n).reverse := by
      apply mapDigitChInj _ _ _ _ hd
      · intro d hdm
        exact Nat.digits_lt_base (by norm_num) (List.mem_reverse.mp hdm)
      · intro d hdm
        exact Nat.digits_lt_base (by norm_num) (List.mem_reverse.mp hdm)
    have hdig : Nat.digits 10 m = Nat.digits 10 n := by
      have := congrArg List.reverse hrev
      simpa using this
    calc m = Nat.ofDigits 10 (Nat.digits 10 m) := (Nat.ofDigits_digits 10 m).symm
      _ = Nat.ofDigits 10 (Nat.digits 10 n) := by rw [hdig]
      _ = n := Nat.ofDigits_digits 10 n

/-- The character list of a note id, in separator-exposing form. -/
theorem mkNoteIdData (dateNow : ℕ → ℕ) (rand : ℕ → String) (i : ℕ) :
    (mkNoteId dateNow rand i).data =
      'f' :: 'i' :: 'l' :: 'e' :: '_' ::
        ((natToStr (dateNow i)).data ++ '_' ::
          ((natToStr i).data ++ '_' :: (rand i).data)) := by
  simp only [mkNoteId, String.data_append, List.append_assoc]
  rfl

/-- Note ids determine their index: the timestamp and index components
are decimal, hence underscore-free, so the first two separators parse
unambiguously left to right (whatever the random suffix contains). -/
theorem mkNoteIdInj (dateNow : ℕ → ℕ) (rand : ℕ → String) (i j : ℕ)
    (h : mkNoteId dateNow rand i = mkNoteId dateNow rand j) : i = j := by
  have hd := congrArg String.data h
  rw [mkNoteIdData, mkNoteIdData] at hd
  simp only [List.cons.injEq, true_and] at hd
  obtain ⟨_, hd2⟩ := splitUniq '_' (natToStr (dateNow i)).data _ _ _
    (natToStrNoUnderscore _) (natToStrNoUnderscore _) hd
  obtain ⟨hd3, _⟩ := splitUniq '_' (natToStr i).data _ _ _
    (natToStrNoUnderscore _) (natToStrNoUnderscore _) hd2
  have heq : natToStr i = natToStr j := by
    have e1 : natToStr i = ⟨(natToStr i).data⟩ := rfl
    have e2 : natToStr j = ⟨(natToStr j).data⟩ := rfl
    rw [e1, e2, hd3]
  exact natToStrInj i j heq

/-- `dropWhile` never lengthens a list. -/
theorem lenDropWhileLe (p : α → Bool) (l : List α) :
    (l.dropWhile p).length ≤ l.length := by
  induction l with
  | nil => simp
  | cons c rest ih =>
    simp only [List.dropWhile]
    by_cases h : p c
    · simp only [h]; simpa using Nat.le_succ_of_le ih
    · simp [h]

/-- Trimming never lengthens a string. -/
theorem trimLLenLe (l : List Char) : (trimL l).length ≤ l.length := by
  unfold trimL
  calc (((l.dropWhile isJsWs).reverse.dropWhile isJsWs).reverse).length
      = ((l.dropWhile isJsWs).reverse.dropWhile isJsWs).length := by simp
    _ ≤ (l.dropWhile isJsWs).reverse.length := lenDropWhileLe _ _
    _ = (l.dropWhile isJsWs).length := by simp
    _ ≤ l.length := lenDropWhileLe _ _

/-- Lower-casing maps a character to `.` only if it already was `.`. -/
theorem jsToLowerDotIff (c : Char) : jsToLower c = '.' ↔ c = '.' := by
  unfold jsToLower
  split <;> simp_all

/-- A dot-free list has no last-dot index. -/
theorem lastDotIdxNone (l : List Char) (h : '.' ∉ l) : lastDotIdx l = none := by
  induction l with
  | nil => rfl
  | cons c rest ih =>
    simp only [List.mem_cons, not_or] at h
    simp only [lastDotIdx, ih h.2]
    rw [if_neg (by intro hc; exact h.1 hc.symm)]

/-- Lower-casing does not move the last dot. -/
theorem lastDotIdxMap (l : List Char) :
    lastDotIdx (l.map jsToLower) = lastDotIdx l := by
  induction l with
  | nil => rfl
  | cons c rest ih =>
    simp only [List.map_cons, lastDotIdx, ih]
    cases lastDotIdx rest with
    | some i => rfl
    | none =>
      by_cases hc : c = '.'
      · rw [if_pos ((jsToLowerDotIff c).mpr hc), if_pos hc]
      · rw [if_neg (fun hl => hc ((jsToLowerDotIff c).mp hl)), if_neg hc]

/-- Lower-casing introduces no dot. -/
theorem noDotLowerMap (l : List Char) (h : '.' ∉ l) : '.' ∉ l.map jsToLower := by
  intro hmem
  obtain ⟨c, hc, heq⟩ := List.mem_map.mp hmem
  exact h (((jsToLowerDotIff c).mp heq) ▸ hc)

/-- Every extension registered in the classifier table starts with a dot. -/
theorem tableExtsStartDot :
    ∀ p ∈ SUPPORTED_TYPES, ∀ e ∈ p.2, e.data.head? = some '.' := by decide

/-! ### Claim C1 — markdown-header segmentation of Scenario A -/

/-- Claim C1 counterexample: on the Scenario-A input the first unit's
content is `"Intro\nHello"`, not `"Hello"` — the marker split removes
only the `#` marker and its whitespace, so the heading text stays at the
front of each unit's content. -/
theorem extractNotes_markdown_headers_counterexample :
    extractNotesFromContent "# Intro\nHello\n\n# Details\nWorld" "test.md" ≠
      Except.ok [("Intro", "Hello"), ("Details", "World")] := by decide

/-- Claim C1 (amended): segmentation of
`"# Intro\nHello\n\n# Details\nWorld"` returns exactly the two units
`("Intro", "Intro\nHello")` and `("Details", "Details\nWorld")` — under
the markdown-header strategy each unit's content runs from just after
the heading marker (hashes plus whitespace) up to, and not including,
the next heading marker, trimmed, and therefore starts with the heading
text itself. -/
theorem extractNotes_markdown_headers_amended :
    extractNotesFromContent "# Intro\nHello\n\n# Details\nWorld" "test.md" =
      Except.ok [("Intro", "Intro\nHello"), ("Details", "Details\nWorld")] := by rfl

/-! ### Claim C2 — (non-)emptiness of the segmentation output -/

/-- Claim C2 counterexample: on `"# a\n# b"` the markdown-header strategy
fires (two headings) but both units have content of length at most 10
and are dropped, so segmentation returns the empty sequence — refuting
the claim that the output is always non-empty. -/
theorem extractNotes_empty_result_counterexample :
    extractNotesFromContent "# a\n# b" "f.md" = Except.ok [] := by rfl

/-- Claim C2 (amended): the chunking and single-unit fallbacks always
succeed, so segmentation returns a non-empty sequence whenever the
markdown-header, numbered-section and bullet-list strategies do not fire;
those three strategies, however, drop units below their content-length
thresholds and can return an empty sequence. -/
theorem extractNotes_nonempty_unless_droppable (content fileName : String)
    (h1 : (headerFullRegexMatches content.data).length ≤ 1)
    (h2 : (numberedSections content.data).length ≤ 2)
    (h4 : (bulletSections content.data).length ≤ 2) :
    ∃ l, extractNotesFromContent content fileName = Except.ok l ∧ l ≠ [] := by
  unfold extractNotesFromContent
  rw [if_neg (by omega), if_neg (by omega)]
  by_cases h3 : 1 < (qualifyingParagraphs content.data).length
  · rw [if_pos h3]
    refine ⟨_, rfl, ?_⟩
    intro hnil
    have hlen := congrArg List.length hnil
    simp only [method3, mapWithIdxLength, List.length_nil] at hlen
    omega
  · rw [if_neg h3, if_neg (by omega)]
    by_cases h5 : (hasSub content.data "Row 1:".data = true ∨
        hasSub content.data "Columns:".data = true) ∧ 1 < (rowMatches content.data).length
    · rw [if_pos h5]
      refine ⟨_, rfl, ?_⟩
      intro hnil
      have hlen := congrArg List.length hnil
      simp only [method5, mapWithIdxLength, List.length_nil] at hlen
      omega
    · rw [if_neg h5]
      by_cases h6 : 1000 < content.length
      · rw [if_pos h6]
        refine ⟨_, rfl, ?_⟩
        intro hnil
        have hne : content.data ≠ [] := by
          intro hd
          have : content.length = 0 := by simp [String.length, hd]
          omega
        rw [chunkNotes] at hnil
        rw [chunksOf, dif_neg hne] at hnil
        simp [mapWithIdx] at hnil
      · rw [if_neg h6]
        exact ⟨_, rfl, by simp⟩

/-- Witness for the amended Claim C2 at a plain short text. -/
theorem extractNotes_nonempty_unless_droppable_witness :
    ∃ l, extractNotesFromContent "just some plain text" "f.txt" = Except.ok l ∧ l ≠ [] :=
  extractNotes_nonempty_unless_droppable "just some plain text" "f.txt"
    (by decide) (by decide) (by decide)

/-! ### Claim C3 — `processFile` contains extractor failures -/

/-- Claim C3: `processFile` never propagates an extractor failure — when
the dispatched extractor throws with message `msg`, the returned
`ProcessedFile` has the non-empty content
`"Error processing file: " ++ msg`. -/
theorem processFile_error_banner (file : InputFile) (ex : Extractors) (msg : String)
    (h : dispatchTry file ex = .error msg) :
    (processFile file ex).content = "Error processing file: " ++ msg ∧
    (processFile file ex).content ≠ "" := by
  have hc : (processFile file ex).content = "Error processing file: " ++ msg := by
    simp only [processFile, h]
  refine ⟨hc, ?_⟩
  rw [hc]
  intro heq
  have hdata := congrArg String.data heq
  simp only [String.data_append] at hdata
  simp at hdata

/-- Witness for Claim C3: a text file whose reader rejects. -/
theorem processFile_error_banner_witness :
    (processFile file3 ex3).content = "Error processing file: " ++ "Failed to read text file" ∧
    (processFile file3 ex3).content ≠ "" :=
  processFile_error_banner file3 ex3 "Failed to read text file" rfl

/-! ### Claim C4 — note count, id distinctness, provenance -/

/-- Claim C4: when segmentation yields `n` units, the synthesizer
produces exactly `n` note records, their ids are pairwise distinct
(whatever timestamps the clock returns and whatever suffixes the random
generator draws), and every record's `sourceFile` is the original file
name. -/
theorem createNotes_count_distinct_ids_sourceFile (pf : ProcessedFile)
    (category : String) (now : ℕ) (dateNow : ℕ → ℕ) (rand : ℕ → String)
    (units : List (String × String))
    (hext : extractNotesFromContent pf.content pf.name = .ok units) :
    ∃ l, createNotesFromProcessedFile pf category now dateNow rand = .ok l ∧
      l.length = units.length ∧ (l.map Note.id).Nodup ∧
      ∀ note ∈ l, note.sourceFile = pf.name := by
  unfold createNotesFromProcessedFile
  rw [hext]
  dsimp only
  by_cases hem : units.isEmpty
  · rw [if_pos hem]
    have hunits : units = [] := List.isEmpty_iff.mp hem
    subst hunits
    exact ⟨[], rfl, rfl, List.nodup_nil, by intro note hmem; simp at hmem⟩
  · rw [if_neg hem]
    refine ⟨_, rfl, mapWithIdxLength _ _ _, ?_, ?_⟩
    · rw [mapWithIdxMap]
      exact nodupMapWithIdx _ (fun i j x y heq => mkNoteIdInj dateNow rand i j heq) 0 units
    · intro note hmem
      obtain ⟨i, x, _, _, hy⟩ := memMapWithIdx _ 0 units note hmem
      rw [hy]

/-- Witness for Claim C4 at a two-unit markdown upload. -/
theorem createNotes_count_distinct_ids_sourceFile_witness :
    ∃ l, createNotesFromProcessedFile pf4 "Uploads" 77 (fun _ => 12345)
        (fun _ => "q0z9k3j2p") = .ok l ∧
      l.length = units4.length ∧ (l.map Note.id).Nodup ∧
      ∀ note ∈ l, note.sourceFile = pf4.name :=
  createNotes_count_distinct_ids_sourceFile pf4 "Uploads" 77 (fun _ => 12345)
    (fun _ => "q0z9k3j2p") units4 rfl

/-! ### Claim C5 — audio/video duration estimation -/

/-- Claim C5 counterexample: the pipeline's `processAudioFile` estimates
`floor(size / 16000)` — a zero-byte audio file gets duration `0`,
outside the claimed clamp `[1, 7200]`, and a 32000-byte webm file gets
`2` seconds where the claimed MIME-keyed formula (32 kbps, clamped),
implemented only in the speech service, gives `8`. -/
theorem duration_estimate_counterexample :
    processAudioFileDuration 0 = 0 ∧ ¬ 1 ≤ processAudioFileDuration 0 ∧
    processAudioFileDuration 32000 = 2 ∧
    estimateAudioDuration 32000 "audio/webm" = 8 := by
  refine ⟨rfl, by decide, rfl, ?_⟩
  simp only [estimateAudioDuration]
  rw [if_pos (by decide)]
  norm_num

/-- Claim C5 (amended): the pipeline itself estimates audio duration as
`floor(size / 16000)` and video duration as `floor(size / 100000)`, with
no MIME-keyed bitrate and no clamping; the MIME-keyed clamped estimate
lives in the speech service's `estimateAudioDuration`, whose result
always lies in `[1, 7200]` seconds. -/
theorem duration_estimate_amended (size : ℕ) (format : String) :
    processAudioFileDuration size = size / 16000 ∧
    processVideoFileDuration size = size / 100000 ∧
    1 ≤ estimateAudioDuration size format ∧
    estimateAudioDuration size format ≤ 7200 := by
  refine ⟨rfl, rfl, le_max_left _ _, ?_⟩
  exact max_le (by norm_num) (min_le_right _ _)

/-! ### Claim C6 — single-unit fallback -/

/-- Claim C6: for every input of length at most 1000 characters on which
no structural strategy fires (fewer than two heading matches, at most
two numbered sections, at most one long paragraph, at most two bullet
sections, no row/column marker), segmentation returns exactly one unit
whose content is the whole input and whose title is the file name with
its extension stripped, or `"Extracted Content"` when that is empty. -/
theorem extractNotes_single_unit_fallback (content fileName : String)
    (h1 : (headerFullRegexMatches content.data).length ≤ 1)
    (h2 : (numberedSections content.data).length ≤ 2)
    (h3 : (qualifyingParagraphs content.data).length ≤ 1)
    (h4 : (bulletSections content.data).length ≤ 2)
    (h5a : hasSub content.data "Row 1:".data = false)
    (h5b : hasSub content.data "Columns:".data = false)
    (h6 : content.length ≤ 1000) :
    extractNotesFromContent content fileName =
      Except.ok [(⟨orElseL (stripExtL fileName.data) "Extracted Content".data⟩, content)] := by
  unfold extractNotesFromContent
  rw [if_neg (by omega), if_neg (by omega), if_neg (by omega), if_neg (by omega),
      if_neg (by simp [h5a, h5b]), if_neg (by omega)]

/-- Witness for Claim C6: a plain short text in `notes.txt` yields the
single unit titled `notes`. -/
theorem extractNotes_single_unit_fallback_witness :
    extractNotesFromContent "hello world" "notes.txt" =
      Except.ok [(⟨orElseL (stripExtL "notes.txt".data) "Extracted Content".data⟩,
                  "hello world")] :=
  extractNotes_single_unit_fallback "hello world" "notes.txt"
    (by decide) (by decide) (by decide) (by decide) (by decide) (by decide) (by decide)

/-! ### Claim C7 — classifier table well-formedness -/

/-- Claim C7: in the classifier's fixed extension table no extension
appears under two categories — the extension lists of distinct
categories are pairwise disjoint. -/
theorem supportedTypes_extensions_disjoint :
    SUPPORTED_TYPES.Pairwise (fun a b => ∀ e ∈ a.2, e ∉ b.2) := by decide

/-! ### Claim C8 — extractive summary -/

/-- Claim C8: the synthesized summary is the content verbatim when the
content has at most 200 characters, and otherwise the trimmed first 150
characters followed by an ellipsis. -/
theorem generateSummary_extractive (pf : ProcessedFile) :
    (pf.content.length ≤ 200 → generateSummary pf = pf.content) ∧
    (200 < pf.content.length →
      generateSummary pf = trimStr ⟨pf.content.data.take 150⟩ ++ "...") := by
  constructor
  · intro h
    simp only [generateSummary]
    rw [if_pos h]
  · intro h
    have hle : (trimStr ⟨pf.content.data.take 150⟩).length ≤ 150 := by
      have h1 := trimLLenLe (pf.content.data.take 150)
      have h2 : (pf.content.data.take 150).length ≤ 150 := by
        simp [List.length_take]
      calc (trimStr ⟨pf.content.data.take 150⟩).length
          = (trimL (pf.content.data.take 150)).length := rfl
        _ ≤ (pf.content.data.take 150).length := h1
        _ ≤ 150 := h2
    simp only [generateSummary]
    rw [if_neg (by omega), if_pos (by omega)]

/-- Witness for Claim C8 at a short content. -/
theorem generateSummary_extractive_witness : generateSummary pf8 = "short note" :=
  (generateSummary_extractive pf8).1 (by decide)

/-! ### Claim C9 — uniform tags across one upload's notes -/

/-- Claim C9: all note records synthesized from one processed file carry
identical tag lists — the tag list (including the smart tags) is
computed from the whole file's content and size, never from an
individual unit. -/
theorem createNotes_tags_uniform (pf : ProcessedFile) (category : String)
    (now : ℕ) (dateNow : ℕ → ℕ) (rand : ℕ → String) (l : List Note)
    (h : createNotesFromProcessedFile pf category now dateNow rand = .ok l) :
    ∀ n ∈ l, ∀ m ∈ l, n.tags = m.tags := by
  unfold createNotesFromProcessedFile at h
  cases hext : extractNotesFromContent pf.content pf.name with
  | error e => rw [hext] at h; simp at h
  | ok units =>
    rw [hext] at h
    dsimp only at h
    by_cases hem : units.isEmpty
    · rw [if_pos hem] at h
      simp only [Except.ok.injEq] at h
      subst h
      intro n hn
      simp at hn
    · rw [if_neg hem] at h
      simp only [Except.ok.injEq] at h
      subst h
      intro n hn m hm
      obtain ⟨i, x, _, _, hn'⟩ := memMapWithIdx _ 0 units n hn
      obtain ⟨j, y, _, _, hm'⟩ := memMapWithIdx _ 0 units m hm
      rw [hn', hm']

/-- Witness for Claim C9: the two notes produced from `pf9` have equal
tag lists. -/
theorem createNotes_tags_uniform_witness :
    (c9notes.getD 0 dummyNote).tags = (c9notes.getD 1 dummyNote).tags :=
  createNotes_tags_uniform pf9 "Uploads" 1 (fun _ => 2) (fun _ => "abc123xyz")
    c9notes rfl _ (by decide) _ (by decide)

/-! ### Claim C10 — total, case-insensitive classification -/

/-- Claim C10: for a file name without a dot, `getFileExtension` returns
the whole lower-cased name, which matches no table entry, so
`getFileType` yields `"unknown"`; and classification depends only on the
lower-cased name, so names with equal lower-casings classify
identically. -/
theorem classification_total_case_insensitive :
    (∀ name : String, '.' ∉ name.data →
      getFileExtension name = lowerStr name ∧
      getFileType (getFileExtension name) = "unknown") ∧
    (∀ n₁ n₂ : String, lowerStr n₁ = lowerStr n₂ →
      getFileType (getFileExtension n₁) = getFileType (getFileExtension n₂)) := by
  constructor
  · intro name hnd
    have hext : getFileExtension name = lowerStr name := by
      simp only [getFileExtension, lastDotIdxNone name.data hnd, lowerStr]
    refine ⟨hext, ?_⟩
    rw [hext]
    have hndl : '.' ∉ (lowerStr name).data := noDotLowerMap name.data hnd
    simp only [getFileType]
    rw [List.find?_eq_none.mpr]
    intro p hp
    simp only [decide_eq_true_eq]
    intro hmem
    have hhead := tableExtsStartDot p hp _ hmem
    exact hndl (List.mem_of_mem_head? hhead)
  · intro n₁ n₂ hlow
    have hdata : n₁.data.map jsToLower = n₂.data.map jsToLower := by
      have := congrArg String.data hlow
      simpa [lowerStr] using this
    have hidx : lastDotIdx n₁.data = lastDotIdx n₂.data := by
      rw [← lastDotIdxMap n₁.data, ← lastDotIdxMap n₂.data, hdata]
    have hext : getFileExtension n₁ = getFileExtension n₂ := by
      simp only [getFileExtension, hidx, hdata]
    rw [hext]

/-- Witness for Claim C10: a dotless name classifies as unknown, and a
name classifies the same in either letter case. -/
theorem classification_total_case_insensitive_witness :
    (getFileExtension "README" = lowerStr "README" ∧
      getFileType (getFileExtension "README") = "unknown") ∧
    getFileType (getFileExtension "A.TXT") = getFileType (getFileExtension "a.txt") :=
  ⟨classification_total_case_insensitive.1 "README" (by decide),
   classification_total_case_insensitive.2 "A.TXT" "a.txt" (by decide)⟩
